import Mathlib

/-!
Verification of the EtherealEngine screen-space picking subsystem.

Shallow embedding of:
* `src/engine/core/graphics/render_pass.cpp` — the view-slot allocator
  (`generate_id`, `render_pass::get_pass`);
* `src/editor/editor_runtime/editing/picking_system.cpp` — the ColorID
  encoding, the pixel-histogram decode, and the per-frame readback state
  machine of `picking_system::frame_render`.

Machine integers are modelled as `Nat`; the allocator counter never exceeds
255 by construction, and histogram keys and counts are bounded by the buffer
size, so no overflow wrap is reachable in the modelled code paths.
-/

set_option maxRecDepth 10000

namespace Ethereal

/-! ## View slot allocator (`render_pass.cpp`)

The C++ file holds two file-static variables `s_index` and `s_last_index`.
`frame()` is the external GPU frame flush; we count its invocations in the
state so that "exactly one flush" claims are expressible. -/

structure AllocState where
  s_index : Nat
  s_last_index : Nat
  flushes : Nat
deriving DecidableEq

/-- Embedding of `gfx::generate_id`:
`if(s_index == 255) { frame(); s_index = 0; } idx = s_index++; s_last_index = idx; return idx;` -/
def generate_id (s : AllocState) : Nat × AllocState :=
  let s0 := if s.s_index = 255 then { s with s_index := 0, flushes := s.flushes + 1 } else s
  let idx := s0.s_index
  (idx, { s0 with s_index := idx + 1, s_last_index := idx })

/-- Embedding of `render_pass::get_pass` (`return s_last_index;`), the spec's `last_issued()`. -/
def get_pass (s : AllocState) : Nat :=
  s.s_last_index

/-- Allocator state after a reset: both counters zero (as after `render_pass::reset`). -/
def resetAlloc : AllocState :=
  ⟨0, 0, 0⟩

/-- Run `n` consecutive `generate_id` calls, collecting the returned slots in order. -/
def runAlloc : Nat → AllocState → List Nat × AllocState
  | 0, s => ([], s)
  | Nat.succ n, s =>
    let r := generate_id s
    let rest := runAlloc n r.2
    (r.1 :: rest.1, rest.2)

/-! ## ColorID encoding (`picking_system.cpp` lines 102-106 and 140-159) -/

/-- Embedding of the render-side ColorID packing:
`rr = index & 0xff; gg = (index >> 8) & 0xff; bb = (index >> 16) & 0xff`. -/
def encodeColorID (i : Nat) : Nat × Nat × Nat :=
  (i &&& 0xff, (i >>> 8) &&& 0xff, (i >>> 16) &&& 0xff)

/-- Embedding of the decode-side key reconstruction:
`hash_key = rr + (gg << 8) + (bb << 16)`. -/
def decodeColorID (c : Nat × Nat × Nat) : Nat :=
  c.1 + (c.2.1 <<< 8) + (c.2.2 <<< 16)

theorem encodeColorID_arith (i : Nat) :
    encodeColorID i = (i % 256, i / 2 ^ 8 % 256, i / 2 ^ 16 % 256) := by
  have h8 := Nat.and_pow_two_sub_one_eq_mod i 8
  have h8a := Nat.and_pow_two_sub_one_eq_mod (i >>> 8) 8
  have h8b := Nat.and_pow_two_sub_one_eq_mod (i >>> 16) 8
  have hs8 := Nat.shiftRight_eq_div_pow i 8
  have hs16 := Nat.shiftRight_eq_div_pow i 16
  simp only [encodeColorID]
  norm_num at h8 h8a h8b ⊢
  rw [h8, h8a, h8b, hs8, hs16]
  omega

theorem decodeColorID_arith (r g b : Nat) :
    decodeColorID (r, g, b) = r + g * 256 + b * 65536 := by
  simp only [decodeColorID, Nat.shiftLeft_eq]

/-! ## C2: view-slot wraparound -/

/-- C2 counterexample: 256 consecutive `generate_id` calls from a freshly
reset allocator do NOT return the slots 0..255 — the flush fires inside the
256th call (when `s_index == 255`), which therefore returns slot 0 again, and
slot 255 is never issued. -/
theorem c2_slot_sequence_cex :
    (runAlloc 256 resetAlloc).1 ≠ List.range 256 ∧
    (runAlloc 256 resetAlloc).2.flushes = 1 := by
  decide

/-- C2 (amended): from a freshly reset allocator, 255 consecutive
`generate_id` calls return slots 0..254 in order with no flush; the 256th
call forces exactly one frame flush and returns slot 0 again (slot 255 is
never issued); and after every call `get_pass` (the spec's `last_issued()`)
returns exactly the value that call returned. -/
theorem c2_slot_wraparound_amended :
    (runAlloc 255 resetAlloc).1 = List.range 255 ∧
    (runAlloc 255 resetAlloc).2.flushes = 0 ∧
    (runAlloc 256 resetAlloc).1 = List.range 255 ++ [0] ∧
    (runAlloc 256 resetAlloc).2.flushes = 1 ∧
    ∀ s : AllocState, get_pass (generate_id s).2 = (generate_id s).1 := by
  refine ⟨by decide, by decide, by decide, by decide, ?_⟩
  intro s
  simp only [generate_id, get_pass]

/-! ## C3: ColorID encoding -/

/-- C3 counterexample: index 0 lies in [0, 2^24 − 1] yet its ColorID
encoding IS the reserved black triple (0,0,0), so the encoding cannot be a
bijection between [0, 2^24 − 1] and non-black triples. -/
theorem c3_encode_zero_is_black_cex :
    encodeColorID 0 = (0, 0, 0) ∧ 0 < 2 ^ 24 := by
  constructor
  · rfl
  · norm_num

/-- C3 (amended): decoding the ColorID encoding of any i in [0, 2^24 − 1]
yields i back; the encoding of every NONZERO i in that range is a non-black
triple; the encoding is injective on [0, 2^24 − 1]; and every non-black byte
triple is the encoding of exactly one nonzero index in range (so the
encoding restricted to [1, 2^24 − 1] is a bijection onto the non-black
triples, while index 0 maps to the reserved background black). -/
theorem c3_colorid_amended :
    (∀ i, i < 2 ^ 24 → decodeColorID (encodeColorID i) = i) ∧
    (∀ i, 0 < i → i < 2 ^ 24 → encodeColorID i ≠ (0, 0, 0)) ∧
    (∀ i j, i < 2 ^ 24 → j < 2 ^ 24 → encodeColorID i = encodeColorID j → i = j) ∧
    (∀ r g b, r < 256 → g < 256 → b < 256 → ¬(r = 0 ∧ g = 0 ∧ b = 0) →
      0 < decodeColorID (r, g, b) ∧ decodeColorID (r, g, b) < 2 ^ 24 ∧
      encodeColorID (decodeColorID (r, g, b)) = (r, g, b)) := by
  refine ⟨?_, ?_, ?_, ?_⟩
  · intro i hi
    rw [encodeColorID_arith, decodeColorID_arith]
    omega
  · intro i h0 hi
    rw [encodeColorID_arith]
    simp only [ne_eq, Prod.mk.injEq, not_and]
    intro h1 h2 h3
    omega
  · intro i j hi hj hij
    rw [encodeColorID_arith, encodeColorID_arith] at hij
    simp only [Prod.mk.injEq] at hij
    omega
  · intro r g b hr hg hb hnb
    rw [decodeColorID_arith, encodeColorID_arith]
    refine ⟨by omega, by omega, ?_⟩
    simp only [Prod.mk.injEq]
    refine ⟨by omega, by omega, by omega⟩

/-- C3 witness: the amended theorem at concrete inputs. -/
theorem c3_colorid_amended_witness :
    decodeColorID (encodeColorID 70000) = 70000 ∧ encodeColorID 7 ≠ (0, 0, 0) := by
  exact ⟨c3_colorid_amended.1 70000 (by norm_num),
         c3_colorid_amended.2.1 7 (by norm_num) (by norm_num)⟩

/-! ## Pixel decode (`picking_system::frame_render`, lines 135-195)

One RGBA8 texel of the blit staging buffer. The byte values are naturals;
all byte-level reasoning below holds for arbitrary naturals, so no explicit
`% 256` is needed. -/

structure Pixel where
  r : Nat
  g : Nat
  b : Nat
  a : Nat
deriving DecidableEq

/-- The red byte after the Direct3D9 BGRA swap (`std::swap(rr, bb)`). -/
def swappedR (swapRB : Bool) (p : Pixel) : Nat :=
  if swapRB then p.b else p.r

/-- The blue byte after the Direct3D9 BGRA swap. -/
def swappedB (swapRB : Bool) (p : Pixel) : Nat :=
  if swapRB then p.r else p.b

/-- Embedding of the background test `0 == (rr | gg | bb)` (line 154). -/
def isBackground (swapRB : Bool) (p : Pixel) : Bool :=
  (swappedR swapRB p ||| p.g ||| swappedB swapRB p) == 0

/-- Embedding of `hash_key = rr + (gg << 8) + (bb << 16)` (line 159). -/
def texelKey (swapRB : Bool) (p : Pixel) : Nat :=
  swappedR swapRB p + (p.g <<< 8) + (swappedB swapRB p <<< 16)

/-- `std::map::find` on the histogram, modelled on an association list. -/
def mapFind (k : Nat) : List (Nat × Nat) → Option Nat
  | [] => none
  | e :: rest => if e.1 = k then some e.2 else mapFind k rest

/-- `ids[hash_key] = amount` on a `std::map`: keys kept strictly ascending,
an existing binding for the key is replaced. -/
def insertSorted (k v : Nat) : List (Nat × Nat) → List (Nat × Nat)
  | [] => [(k, v)]
  | e :: rest =>
    if k < e.1 then (k, v) :: e :: rest
    else if k = e.1 then (k, v) :: rest
    else e :: insertSorted k v rest

/-- The loop state of the histogram scan: the `std::map ids` and the running
`max_amount`. -/
structure ScanState where
  ids : List (Nat × Nat)
  maxAmount : Nat
deriving DecidableEq

/-- Embedding of one iteration of the scan loop (lines 140-170): skip
background texels, otherwise bump the key's count and update `max_amount`
(`max_amount = max_amount > amount ? max_amount : amount`). -/
def scanTexel (swapRB : Bool) (st : ScanState) (p : Pixel) : ScanState :=
  if isBackground swapRB p then st
  else
    let key := texelKey swapRB p
    let amount :=
      match mapFind key st.ids with
      | some v => v + 1
      | none => 1
    { ids := insertSorted key amount st.ids,
      maxAmount := if st.maxAmount > amount then st.maxAmount else amount }

/-- The full histogram scan over the staging buffer. -/
def scanBuffer (swapRB : Bool) (buf : List Pixel) : ScanState :=
  buf.foldl (scanTexel swapRB) ⟨[], 0⟩

/-- The selection outcome of one decode: `es.select(entity)`,
`es.unselect()`, or no call at all (selection left untouched). -/
inductive SelectionOutcome where
  | select (idx : Nat)
  | deselect
  | noChange
deriving DecidableEq

/-- Embedding of the winner scan and ECS lookup (lines 172-194): if
`max_amount` is nonzero, walk the `std::map` in ascending key order, stop at
the first entry whose count equals `max_amount`, and select the entity of
that key when `ecs.valid_index` holds and the entity handle is alive —
otherwise NO outcome is emitted; if `max_amount` is zero, unselect. -/
def decodePixels (swapRB : Bool) (validIndex alive : Nat → Bool) (buf : List Pixel) :
    SelectionOutcome :=
  let st := scanBuffer swapRB buf
  if st.maxAmount ≠ 0 then
    match st.ids.find? (fun e => e.2 == st.maxAmount) with
    | some e =>
      if validIndex e.1 then
        if alive e.1 then SelectionOutcome.select e.1 else SelectionOutcome.noChange
      else SelectionOutcome.noChange
    | none => SelectionOutcome.noChange
  else SelectionOutcome.deselect

/-- Number of non-background texels of `buf` carrying histogram key `k`;
the reference value the scan's histogram is proved to compute. -/
def keyCount (swapRB : Bool) (k : Nat) (buf : List Pixel) : Nat :=
  (buf.filter (fun p => !isBackground swapRB p && (texelKey swapRB p == k))).length

/-! ## The per-frame tick (`picking_system::frame_render`, lines 24-196) -/

/-- The picking system's persistent state across frame ticks: `_reading`
(the fence frame recorded by `gfx::read_texture`, 0 = none outstanding),
`_start_readback`, and the external selection held by `editing_system`
(modelled here so `select`/`unselect` effects are observable). -/
structure PickState where
  reading : Nat
  start_readback : Bool
  selection : Option Nat
deriving DecidableEq

/-- Everything `frame_render` consumes from collaborators on one tick. -/
structure TickInput where
  clicked : Bool
  gizmoOver : Bool
  cameraOk : Bool
  unprojectNearOk : Bool
  unprojectFarOk : Bool
  blitSupport : Bool
  readFence : Nat
  renderFrame : Nat
  swapRB : Bool
  buffer : List Pixel
  validIndex : Nat → Bool
  alive : Nat → Bool

/-- Observable effects of one tick: whether the `picking_buffer_fill` pass
was opened, whether the no-blit warning was logged, whether the blit/read
was issued, whether the decode block ran, and the emitted outcome. -/
structure TickEvents where
  renderedPass : Bool
  warnedNoBlit : Bool
  blitIssued : Bool
  decoded : Bool
  outcome : SelectionOutcome
deriving DecidableEq

/-- A tick with no observable effect. -/
def noEvents : TickEvents :=
  ⟨false, false, false, false, SelectionOutcome.noChange⟩

/-- Effect of an outcome on the external selection:`es.select` replaces it,
`es.unselect` clears it, otherwise it is untouched. -/
def applyOutcome (o : SelectionOutcome) (sel : Option Nat) : Option Nat :=
  match o with
  | SelectionOutcome.select k => some k
  | SelectionOutcome.deselect => none
  | SelectionOutcome.noChange => sel

/-- Embedding of the decode block (lines 135-195): it fires only when
`_reading && _reading <= render_frame`, clears `_reading`, and applies the
pixel decode's outcome to the selection. -/
def decodePhase (st : PickState) (inp : TickInput) (rendered blitted : Bool) :
    PickState × TickEvents :=
  if 0 < st.reading ∧ st.reading ≤ inp.renderFrame then
    let o := decodePixels inp.swapRB inp.validIndex inp.alive inp.buffer
    ({ reading := 0, start_readback := st.start_readback,
       selection := applyOutcome o st.selection },
     { renderedPass := rendered, warnedNoBlit := false, blitIssued := blitted,
       decoded := true, outcome := o })
  else
    (st, { renderedPass := rendered, warnedNoBlit := false, blitIssued := blitted,
           decoded := false, outcome := SelectionOutcome.noChange })

/-- Embedding of the readback block (lines 116-133): when `!_reading &&
_start_readback`, either log the no-blit warning and bail out (the early
`return` skips the decode block), or issue the blit and record the fence
frame returned by `gfx::read_texture`. -/
def readbackPhase (st : PickState) (inp : TickInput) (rendered : Bool) :
    PickState × TickEvents :=
  if st.reading = 0 ∧ st.start_readback = true then
    if inp.blitSupport = false then
      ({ st with start_readback := false },
       { renderedPass := rendered, warnedNoBlit := true, blitIssued := false,
         decoded := false, outcome := SelectionOutcome.noChange })
    else
      decodePhase { st with reading := inp.readFence, start_readback := false } inp rendered true
  else
    decodePhase st inp rendered false

/-- Embedding of `picking_system::frame_render`: the click branch (lines
33-112, with its guard chain of early returns, `_reading = 0;
_start_readback = true;` and the identity-buffer render pass), followed by
the readback and decode blocks on the same tick. -/
def frame_render_tick (st : PickState) (inp : TickInput) : PickState × TickEvents :=
  if inp.clicked = true then
    if inp.gizmoOver = true ∧ st.selection.isSome = true then (st, noEvents)
    else if inp.cameraOk = false then (st, noEvents)
    else if inp.unprojectNearOk = false then (st, noEvents)
    else if inp.unprojectFarOk = false then (st, noEvents)
    else readbackPhase { st with reading := 0, start_readback := true } inp true
  else
    readbackPhase st inp false

/-! ## Histogram lemmas -/

theorem mapFind_insert_self (k v : Nat) (l : List (Nat × Nat)) :
    mapFind k (insertSorted k v l) = some v := by
  induction l with
  | nil => simp [insertSorted, mapFind]
  | cons e rest ih =>
    by_cases h1 : k < e.1
    · simp [insertSorted, h1, mapFind]
    · by_cases h2 : k = e.1
      · simp [insertSorted, h1, h2, mapFind]
      · have h3 : ¬ e.1 = k := fun h => h2 h.symm
        simp [insertSorted, h1, h2, mapFind, h3, ih]

theorem mapFind_insert_ne (k v q : Nat) (l : List (Nat × Nat)) (hq : q ≠ k) :
    mapFind q (insertSorted k v l) = mapFind q l := by
  have hq1 : ¬ k = q := fun h => hq h.symm
  induction l with
  | nil => simp [insertSorted, mapFind, hq1]
  | cons e rest ih =>
    by_cases h1 : k < e.1
    · simp [insertSorted, h1, mapFind, hq1]
    · by_cases h2 : k = e.1
      · have h3 : ¬ e.1 = q := fun h => hq (h2.trans h).symm
        simp [insertSorted, h1, h2, mapFind, hq1, h3, h2 ▸ h3]
      · simp only [insertSorted, if_neg h1, if_neg h2, mapFind]
        by_cases h4 : e.1 = q
        · simp [h4]
        · simp [h4, ih]

theorem mem_of_mapFind (k v : Nat) (l : List (Nat × Nat)) (h : mapFind k l = some v) :
    (k, v) ∈ l := by
  induction l with
  | nil => simp [mapFind] at h
  | cons e rest ih =>
    by_cases h1 : e.1 = k
    · simp only [mapFind, if_pos h1, Option.some.injEq] at h
      have : e = (k, v) := Prod.ext h1 h
      simp [this]
    · simp only [mapFind, if_neg h1] at h
      exact List.mem_cons_of_mem e (ih h)

theorem mem_insertSorted_elim (k v : Nat) (l : List (Nat × Nat)) (x : Nat × Nat)
    (h : x ∈ insertSorted k v l) : x = (k, v) ∨ x ∈ l := by
  induction l with
  | nil => simpa [insertSorted] using h
  | cons e rest ih =>
    by_cases h1 : k < e.1
    · simp only [insertSorted, if_pos h1, List.mem_cons] at h
      rcases h with h | h | h
      · exact Or.inl h
      · exact Or.inr (by simp [h])
      · exact Or.inr (by simp [h])
    · by_cases h2 : k = e.1
      · simp only [insertSorted, if_neg h1, if_pos h2, List.mem_cons] at h
        rcases h with h | h
        · exact Or.inl h
        · exact Or.inr (by simp [h])
      · simp only [insertSorted, if_neg h1, if_neg h2, List.mem_cons] at h
        rcases h with h | h
        · exact Or.inr (by simp [h])
        · rcases ih h with h | h
          · exact Or.inl h
          · exact Or.inr (by simp [h])

theorem mem_insertSorted_self (k v : Nat) (l : List (Nat × Nat)) :
    (k, v) ∈ insertSorted k v l := by
  induction l with
  | nil => simp [insertSorted]
  | cons e rest ih =>
    by_cases h1 : k < e.1
    · simp [insertSorted, h1]
    · by_cases h2 : k = e.1
      · simp [insertSorted, h1, h2]
      · simp [insertSorted, h1, h2, ih]

theorem mem_insertSorted_of_mem (k v : Nat) (l : List (Nat × Nat)) (x : Nat × Nat)
    (hx : x ∈ l) (hne : x.1 ≠ k) : x ∈ insertSorted k v l := by
  induction l with
  | nil => simp at hx
  | cons e rest ih =>
    by_cases h1 : k < e.1
    · simp only [insertSorted, if_pos h1, List.mem_cons]
      simp only [List.mem_cons] at hx
      rcases hx with h | h
      · exact Or.inr (Or.inl h)
      · exact Or.inr (Or.inr h)
    · by_cases h2 : k = e.1
      · simp only [insertSorted, if_neg h1, if_pos h2, List.mem_cons]
        simp only [List.mem_cons] at hx
        rcases hx with h | h
        · exact absurd (h ▸ h2.symm) hne
        · exact Or.inr h
      · simp only [insertSorted, if_neg h1, if_neg h2, List.mem_cons]
        simp only [List.mem_cons] at hx
        rcases hx with h | h
        · exact Or.inl h
        · exact Or.inr (ih h)

theorem pairwise_insertSorted (k v : Nat) (l : List (Nat × Nat))
    (h : List.Pairwise (fun a b => a.1 < b.1) l) :
    List.Pairwise (fun a b => a.1 < b.1) (insertSorted k v l) := by
  induction l with
  | nil => simp [insertSorted]
  | cons e rest ih =>
    rw [List.pairwise_cons] at h
    obtain ⟨he, hrest⟩ := h
    by_cases h1 : k < e.1
    · simp only [insertSorted, if_pos h1]
      rw [List.pairwise_cons]
      refine ⟨?_, List.pairwise_cons.mpr ⟨he, hrest⟩⟩
      intro x hx
      rcases List.mem_cons.mp hx with h | h
      · simpa [h] using h1
      · exact lt_trans h1 (he x h)
    · by_cases h2 : k = e.1
      · simp only [insertSorted, if_neg h1, if_pos h2]
        rw [List.pairwise_cons]
        refine ⟨?_, hrest⟩
        intro x hx
        exact h2 ▸ he x hx
      · simp only [insertSorted, if_neg h1, if_neg h2]
        rw [List.pairwise_cons]
        refine ⟨?_, ih hrest⟩
        intro x hx
        have hek : e.1 < k := by omega
        rcases mem_insertSorted_elim k v rest x hx with h | h
        · simpa [h] using hek
        · exact he x h

theorem mapFind_of_mem_pairwise (l : List (Nat × Nat)) (x : Nat × Nat)
    (hp : List.Pairwise (fun a b => a.1 < b.1) l) (hx : x ∈ l) :
    mapFind x.1 l = some x.2 := by
  induction l with
  | nil => simp at hx
  | cons e rest ih =>
    rw [List.pairwise_cons] at hp
    obtain ⟨he, hrest⟩ := hp
    rcases List.mem_cons.mp hx with h | h
    · simp [mapFind, h]
    · have : e.1 < x.1 := he x h
      have hne : ¬ e.1 = x.1 := by omega
      simp [mapFind, hne, ih hrest h]

/-! ## The scan invariant -/

theorem keyCount_append (swapRB : Bool) (k : Nat) (l1 l2 : List Pixel) :
    keyCount swapRB k (l1 ++ l2) = keyCount swapRB k l1 + keyCount swapRB k l2 := by
  simp [keyCount, List.filter_append]

theorem keyCount_singleton_bg (swapRB : Bool) (k : Nat) (p : Pixel)
    (h : isBackground swapRB p = true) : keyCount swapRB k [p] = 0 := by
  simp [keyCount, List.filter, h]

theorem keyCount_singleton_key (swapRB : Bool) (p : Pixel)
    (h : isBackground swapRB p = false) : keyCount swapRB (texelKey swapRB p) [p] = 1 := by
  simp [keyCount, List.filter, h]

theorem keyCount_singleton_ne (swapRB : Bool) (k : Nat) (p : Pixel)
    (h : texelKey swapRB p ≠ k) : keyCount swapRB k [p] = 0 := by
  have hb : (texelKey swapRB p == k) = false := beq_eq_false_iff_ne.mpr h
  simp [keyCount, List.filter, hb]

theorem scanTexel_bg (swapRB : Bool) (st : ScanState) (p : Pixel)
    (h : isBackground swapRB p = true) : scanTexel swapRB st p = st := by
  simp [scanTexel, h]

theorem scanTexel_nonbg (swapRB : Bool) (st : ScanState) (p : Pixel)
    (h : isBackground swapRB p = false) :
    scanTexel swapRB st p =
      { ids := insertSorted (texelKey swapRB p)
          (match mapFind (texelKey swapRB p) st.ids with
            | some v => v + 1
            | none => 1) st.ids,
        maxAmount :=
          if st.maxAmount >
              (match mapFind (texelKey swapRB p) st.ids with
                | some v => v + 1
                | none => 1) then st.maxAmount
          else
            (match mapFind (texelKey swapRB p) st.ids with
              | some v => v + 1
              | none => 1) } := by
  simp [scanTexel, h]

theorem keyCount_pos_elim (swapRB : Bool) (k : Nat) (buf : List Pixel)
    (h : 0 < keyCount swapRB k buf) :
    ∃ p ∈ buf, isBackground swapRB p = false ∧ texelKey swapRB p = k := by
  rw [keyCount, List.length_pos] at h
  obtain ⟨p, hp⟩ := List.exists_mem_of_ne_nil _ h
  rw [List.mem_filter] at hp
  obtain ⟨hmem, hpred⟩ := hp
  rw [Bool.and_eq_true, Bool.not_eq_true', beq_iff_eq] at hpred
  exact ⟨p, hmem, hpred.1, hpred.2⟩

/-- The invariant tying the scan loop's state after processing the texel
list `processed` to the reference counting function `keyCount`:
the histogram holds exactly the positive key counts, every recorded count is
bounded by `max_amount`, a positive `max_amount` is attained by some entry,
and the `std::map` iterates in strictly ascending key order. -/
def ScanInv (swapRB : Bool) (processed : List Pixel) (st : ScanState) : Prop :=
  (∀ k, mapFind k st.ids =
    if 0 < keyCount swapRB k processed then some (keyCount swapRB k processed) else none) ∧
  (∀ e ∈ st.ids, e.2 ≤ st.maxAmount) ∧
  (0 < st.maxAmount → ∃ e ∈ st.ids, e.2 = st.maxAmount) ∧
  List.Pairwise (fun a b => a.1 < b.1) st.ids

theorem scanInv_nil (swapRB : Bool) : ScanInv swapRB [] ⟨[], 0⟩ := by
  refine ⟨?_, ?_, ?_, ?_⟩
  · intro k
    simp [mapFind, keyCount]
  · intro e he
    simp at he
  · intro h
    simp at h
  · simp

theorem scanInv_step (swapRB : Bool) (processed : List Pixel) (st : ScanState) (p : Pixel)
    (h : ScanInv swapRB processed st) :
    ScanInv swapRB (processed ++ [p]) (scanTexel swapRB st p) := by
  obtain ⟨h1, h3, h4, h5⟩ := h
  by_cases hbg : isBackground swapRB p = true
  · have hcount : ∀ k, keyCount swapRB k (processed ++ [p]) = keyCount swapRB k processed := by
      intro k
      rw [keyCount_append, keyCount_singleton_bg swapRB k p hbg]
      omega
    rw [scanTexel_bg swapRB st p hbg]
    exact ⟨fun k => by rw [hcount k]; exact h1 k, h3, h4, h5⟩
  · rw [Bool.not_eq_true] at hbg
    have hcK : keyCount swapRB (texelKey swapRB p) (processed ++ [p]) =
        keyCount swapRB (texelKey swapRB p) processed + 1 := by
      rw [keyCount_append, keyCount_singleton_key swapRB p hbg]
    have hcNe : ∀ k, k ≠ texelKey swapRB p →
        keyCount swapRB k (processed ++ [p]) = keyCount swapRB k processed := by
      intro k hk
      rw [keyCount_append, keyCount_singleton_ne swapRB k p (fun hte => hk hte.symm)]
      omega
    -- the freshly computed amount is exactly the new count of the texel's key
    have hamount :
        (match mapFind (texelKey swapRB p) st.ids with
          | some v => v + 1
          | none => 1) = keyCount swapRB (texelKey swapRB p) processed + 1 := by
      rw [h1 (texelKey swapRB p)]
      by_cases hpos : 0 < keyCount swapRB (texelKey swapRB p) processed
      · simp [hpos]
      · have h0 : keyCount swapRB (texelKey swapRB p) processed = 0 := by omega
        simp [hpos, h0]
    have hstep := scanTexel_nonbg swapRB st p hbg
    rw [hamount] at hstep
    rw [hstep]
    refine ⟨?_, ?_, ?_, ?_⟩
    · -- histogram contents
      intro k
      dsimp only
      by_cases hk : k = texelKey swapRB p
      · subst hk
        rw [mapFind_insert_self, hcK]
        simp
      · rw [mapFind_insert_ne (texelKey swapRB p) _ k st.ids hk, hcNe k hk]
        exact h1 k
    · -- all counts bounded by the new max
      intro e he
      dsimp only at he ⊢
      rcases mem_insertSorted_elim _ _ st.ids e he with heq | hm
      · subst heq
        dsimp only
        by_cases hgt : st.maxAmount > keyCount swapRB (texelKey swapRB p) processed + 1 <;>
          simp [hgt]
        omega
      · have := h3 e hm
        by_cases hgt : st.maxAmount > keyCount swapRB (texelKey swapRB p) processed + 1 <;>
          simp [hgt] <;> omega
    · -- the new max is attained
      intro hpos
      dsimp only at hpos ⊢
      by_cases hgt : st.maxAmount > keyCount swapRB (texelKey swapRB p) processed + 1
      · rw [if_pos hgt] at hpos ⊢
        obtain ⟨e, he, hev⟩ := h4 hpos
        refine ⟨e, ?_, hev⟩
        have heK : e.1 ≠ texelKey swapRB p := by
          intro hcontra
          have hfind := mapFind_of_mem_pairwise st.ids e h5 he
          rw [hcontra, h1 (texelKey swapRB p)] at hfind
          by_cases hp2 : 0 < keyCount swapRB (texelKey swapRB p) processed
          · rw [if_pos hp2] at hfind
            have he2 : keyCount swapRB (texelKey swapRB p) processed = e.2 :=
              Option.some.inj hfind
            omega
          · rw [if_neg hp2] at hfind
            exact Option.noConfusion hfind
        exact mem_insertSorted_of_mem _ _ st.ids e he heK
      · rw [if_neg hgt] at hpos ⊢
        exact ⟨(texelKey swapRB p, keyCount swapRB (texelKey swapRB p) processed + 1),
               mem_insertSorted_self _ _ st.ids, rfl⟩
    · -- sortedness
      exact pairwise_insertSorted _ _ st.ids h5

theorem scanInv_fold (swapRB : Bool) (l : List Pixel) :
    ∀ (processed : List Pixel) (st : ScanState), ScanInv swapRB processed st →
      ScanInv swapRB (processed ++ l) (l.foldl (scanTexel swapRB) st) := by
  induction l with
  | nil =>
    intro processed st h
    simpa using h
  | cons p t ih =>
    intro processed st h
    have h1 := scanInv_step swapRB processed st p h
    have h2 := ih (processed ++ [p]) _ h1
    simpa using h2

theorem scanBuffer_inv (swapRB : Bool) (buf : List Pixel) :
    ScanInv swapRB buf (scanBuffer swapRB buf) := by
  have := scanInv_fold swapRB buf [] ⟨[], 0⟩ (scanInv_nil swapRB)
  simpa [scanBuffer] using this

/-! ## Winner-selection lemmas -/

theorem find_of_unique {α : Type} (l : List α) (p : α → Bool) (a : α)
    (ha : a ∈ l) (hpa : p a = true) (huniq : ∀ x ∈ l, p x = true → x = a) :
    l.find? p = some a := by
  induction l with
  | nil => simp at ha
  | cons e rest ih =>
    by_cases hpe : p e = true
    · rw [List.find?_cons_of_pos _ hpe]
      exact congrArg some (huniq e (List.mem_cons_self e rest) hpe)
    · rw [List.find?_cons_of_neg _ (by simpa using hpe)]
      rcases List.mem_cons.mp ha with h | h
      · exact absurd (h ▸ hpa) hpe
      · exact ih h (fun x hx hpx => huniq x (List.mem_cons_of_mem e hx) hpx)

theorem find_sorted_min (l : List (Nat × Nat)) (p : Nat × Nat → Bool) (w x : Nat × Nat)
    (hp : List.Pairwise (fun a b => a.1 < b.1) l)
    (hf : l.find? p = some w) (hx : x ∈ l) (hpx : p x = true) : w.1 ≤ x.1 := by
  induction l with
  | nil => simp at hx
  | cons e rest ih =>
    rw [List.pairwise_cons] at hp
    obtain ⟨he, hrest⟩ := hp
    by_cases hpe : p e = true
    · rw [List.find?_cons_of_pos _ hpe] at hf
      have hwe : e = w := Option.some.inj hf
      subst hwe
      rcases List.mem_cons.mp hx with h | h
      · simp [h]
      · exact le_of_lt (he x h)
    · rw [List.find?_cons_of_neg _ (by simpa using hpe)] at hf
      rcases List.mem_cons.mp hx with h | h
      · exact absurd (h ▸ hpx) hpe
      · exact ih hrest hf h

/-- Every histogram entry records exactly the `keyCount` of its key, and is
positive. -/
theorem ids_entry_charact (swapRB : Bool) (buf : List Pixel) (e : Nat × Nat)
    (he : e ∈ (scanBuffer swapRB buf).ids) :
    e.2 = keyCount swapRB e.1 buf ∧ 0 < e.2 := by
  obtain ⟨h1, h3, h4, h5⟩ := scanBuffer_inv swapRB buf
  have hfind := mapFind_of_mem_pairwise _ e h5 he
  rw [h1 e.1] at hfind
  by_cases hpos : 0 < keyCount swapRB e.1 buf
  · rw [if_pos hpos] at hfind
    have := Option.some.inj hfind
    omega
  · rw [if_neg hpos] at hfind
    exact Option.noConfusion hfind

/-- Every key with a positive count appears in the histogram with that count. -/
theorem mem_ids_of_keyCount_pos (swapRB : Bool) (buf : List Pixel) (k : Nat)
    (h : 0 < keyCount swapRB k buf) :
    (k, keyCount swapRB k buf) ∈ (scanBuffer swapRB buf).ids := by
  obtain ⟨h1, _, _, _⟩ := scanBuffer_inv swapRB buf
  exact mem_of_mapFind _ _ _ (by rw [h1 k, if_pos h])

/-- When key `A` strictly dominates every other present key, the winner scan
finds exactly `(A, max_amount)` and `max_amount` is `A`'s count. -/
theorem find_winner_unique (swapRB : Bool) (buf : List Pixel) (A : Nat)
    (hA : 0 < keyCount swapRB A buf)
    (hmaj : ∀ k, 0 < keyCount swapRB k buf → k ≠ A →
      keyCount swapRB k buf < keyCount swapRB A buf) :
    (scanBuffer swapRB buf).maxAmount = keyCount swapRB A buf ∧
    (scanBuffer swapRB buf).ids.find?
      (fun e => e.2 == (scanBuffer swapRB buf).maxAmount) =
        some (A, (scanBuffer swapRB buf).maxAmount) := by
  obtain ⟨h1, h3, h4, h5⟩ := scanBuffer_inv swapRB buf
  have hmemA := mem_ids_of_keyCount_pos swapRB buf A hA
  have hm_ge : keyCount swapRB A buf ≤ (scanBuffer swapRB buf).maxAmount := h3 _ hmemA
  have hmpos : 0 < (scanBuffer swapRB buf).maxAmount := lt_of_lt_of_le hA hm_ge
  obtain ⟨e, he, hev⟩ := h4 hmpos
  obtain ⟨heC, hepos⟩ := ids_entry_charact swapRB buf e he
  have heA : e.1 = A := by
    by_contra hne
    have := hmaj e.1 (by omega) hne
    omega
  have hmax : (scanBuffer swapRB buf).maxAmount = keyCount swapRB A buf := by
    rw [← heA]
    omega
  refine ⟨hmax, ?_⟩
  apply find_of_unique
  · rw [hmax]
    exact hmemA
  · simp
  · intro x hx hpx
    obtain ⟨hxC, hxpos⟩ := ids_entry_charact swapRB buf x hx
    have hx2 : x.2 = (scanBuffer swapRB buf).maxAmount := by simpa using hpx
    have hxA : x.1 = A := by
      by_contra hne
      have := hmaj x.1 (by omega) hne
      omega
    exact Prod.ext hxA hx2

/-! ## C4: majority selection -/

/-- C4: for every pixel buffer in which one non-background color — encoding
a live object index `A` — occupies strictly more texels than every other
non-background color present, the decode emits `Select A`, regardless of how
many texels are background black. -/
theorem c4_majority_select (swapRB : Bool) (validIndex alive : Nat → Bool)
    (buf : List Pixel) (A : Nat)
    (hA : 0 < keyCount swapRB A buf)
    (hmaj : ∀ k, 0 < keyCount swapRB k buf → k ≠ A →
      keyCount swapRB k buf < keyCount swapRB A buf)
    (hvalid : validIndex A = true) (halive : alive A = true) :
    decodePixels swapRB validIndex alive buf = SelectionOutcome.select A := by
  obtain ⟨hmax, hfind⟩ := find_winner_unique swapRB buf A hA hmaj
  have hne : (scanBuffer swapRB buf).maxAmount ≠ 0 := by omega
  simp only [decodePixels]
  rw [if_pos hne, hfind]
  simp [hvalid, halive]

/-- C4 witness: a concrete 3-texel buffer where color key 1 (two texels)
beats color key 2 (one texel); the entity of index 1 is valid and alive. -/
theorem c4_majority_select_witness :
    decodePixels false (fun k => k == 1) (fun k => k == 1)
      [⟨1, 0, 0, 255⟩, ⟨1, 0, 0, 255⟩, ⟨2, 0, 0, 255⟩, ⟨0, 0, 0, 255⟩] =
      SelectionOutcome.select 1 := by
  apply c4_majority_select
  · decide
  · intro k hk hne
    obtain ⟨p, hp, hbgp, hkey⟩ := keyCount_pos_elim false k _ hk
    have hp2 : p = ⟨1, 0, 0, 255⟩ ∨ p = ⟨2, 0, 0, 255⟩ ∨ p = ⟨0, 0, 0, 255⟩ := by
      simpa using hp
    rcases hp2 with h | h | h
    · subst h
      have h1 : texelKey false ⟨1, 0, 0, 255⟩ = 1 := by decide
      rw [h1] at hkey
      exact absurd hkey.symm hne
    · subst h
      have h2 : texelKey false ⟨2, 0, 0, 255⟩ = 2 := by decide
      rw [h2] at hkey
      subst hkey
      decide
    · subst h
      have h3 : isBackground false ⟨0, 0, 0, 255⟩ = true := by decide
      rw [h3] at hbgp
      exact Bool.noConfusion hbgp
  · rfl
  · rfl

/-! ## C6: stale winner index -/

/-- C6 counterexample: a buffer whose winning key's index is NOT live (the
ECS reports the index invalid) makes the decode emit NO outcome at all — the
selection call is simply skipped (`SelectionOutcome.noChange`), which is not
the `Deselect` outcome the claim requires, and the previous selection
survives unchanged. -/
theorem c6_stale_winner_cex :
    decodePixels false (fun _ => false) (fun _ => true) [⟨1, 0, 0, 255⟩] =
      SelectionOutcome.noChange ∧
    SelectionOutcome.noChange ≠ SelectionOutcome.deselect ∧
    applyOutcome
      (decodePixels false (fun _ => false) (fun _ => true) [⟨1, 0, 0, 255⟩])
      (some 42) = some 42 := by
  refine ⟨by decide, by decide, by decide⟩

/-- C6 (amended): for EVERY decode pass whose winning histogram key — the
entry the winner scan stops at, ties included — decodes to an object index
that is not currently live (the index is invalid, or the entity handle is
dead), the decode emits NO selection outcome at all — neither `Select` nor
`Deselect` — and the previous selection is left unchanged. This differs
from clicking the background, which emits `Deselect`. -/
theorem c6_stale_winner_amended (swapRB : Bool) (validIndex alive : Nat → Bool)
    (buf : List Pixel) (w : Nat × Nat)
    (hm : (scanBuffer swapRB buf).maxAmount ≠ 0)
    (hw : (scanBuffer swapRB buf).ids.find?
      (fun e => e.2 == (scanBuffer swapRB buf).maxAmount) = some w)
    (hstale : validIndex w.1 = false ∨ alive w.1 = false) :
    decodePixels swapRB validIndex alive buf = SelectionOutcome.noChange ∧
    ∀ sel : Option Nat,
      applyOutcome (decodePixels swapRB validIndex alive buf) sel = sel := by
  have hout : decodePixels swapRB validIndex alive buf = SelectionOutcome.noChange := by
    simp only [decodePixels]
    rw [if_pos hm, hw]
    rcases hstale with h | h
    · simp [h]
    · by_cases hv : validIndex w.1 = true
      · simp [hv, h]
      · simp only [Bool.not_eq_true] at hv
        simp [hv]
  refine ⟨hout, ?_⟩
  intro sel
  rw [hout]
  rfl

/-- C6 amended witness: a TIED buffer (keys 1 and 2 each once) whose winning
entry — the least tied key, 1 — has a dead entity handle: the decode emits
no outcome. -/
theorem c6_stale_winner_amended_witness :
    decodePixels false (fun _ => true) (fun _ => false)
      [⟨2, 0, 0, 255⟩, ⟨1, 0, 0, 255⟩] = SelectionOutcome.noChange := by
  exact (c6_stale_winner_amended false (fun _ => true) (fun _ => false)
    [⟨2, 0, 0, 255⟩, ⟨1, 0, 0, 255⟩] (1, 1) (by decide) (by decide) (Or.inr rfl)).1

/-! ## C5: background sentinel -/

theorem isBackground_of_key_zero (swapRB : Bool) (p : Pixel)
    (h : texelKey swapRB p = 0) : isBackground swapRB p = true := by
  rw [texelKey, Nat.shiftLeft_eq, Nat.shiftLeft_eq] at h
  norm_num at h
  obtain ⟨hr, hg, hb⟩ : swappedR swapRB p = 0 ∧ p.g = 0 ∧ swappedB swapRB p = 0 := by omega
  rw [isBackground, hr, hg, hb]
  rfl

/-- C5: the background triple (0,0,0) — histogram key 0 — is never entered
into the pixel histogram; a buffer whose texels are all background decodes to
`Deselect`; and a `Select` outcome never carries the background key. -/
theorem c5_background_sentinel :
    (∀ (swapRB : Bool) (buf : List Pixel), mapFind 0 (scanBuffer swapRB buf).ids = none) ∧
    (∀ (swapRB : Bool) (validIndex alive : Nat → Bool) (buf : List Pixel),
      (∀ p ∈ buf, isBackground swapRB p = true) →
      decodePixels swapRB validIndex alive buf = SelectionOutcome.deselect) ∧
    (∀ (swapRB : Bool) (validIndex alive : Nat → Bool) (buf : List Pixel) (k : Nat),
      decodePixels swapRB validIndex alive buf = SelectionOutcome.select k → k ≠ 0) := by
  have hkc0 : ∀ (swapRB : Bool) (buf : List Pixel), keyCount swapRB 0 buf = 0 := by
    intro swapRB buf
    by_contra hne
    obtain ⟨p, hp, hbgp, hkey⟩ :=
      keyCount_pos_elim swapRB 0 buf (Nat.pos_of_ne_zero hne)
    rw [isBackground_of_key_zero swapRB p hkey] at hbgp
    exact Bool.noConfusion hbgp
  refine ⟨?_, ?_, ?_⟩
  · intro swapRB buf
    obtain ⟨h1, _, _, _⟩ := scanBuffer_inv swapRB buf
    rw [h1 0, hkc0, if_neg (by omega)]
  · intro swapRB validIndex alive buf hall
    have hm : (scanBuffer swapRB buf).maxAmount = 0 := by
      by_contra hne
      obtain ⟨h1, h3, h4, h5⟩ := scanBuffer_inv swapRB buf
      obtain ⟨e, he, hev⟩ := h4 (Nat.pos_of_ne_zero hne)
      obtain ⟨heC, hepos⟩ := ids_entry_charact swapRB buf e he
      obtain ⟨p, hp, hbgp, hkey⟩ := keyCount_pos_elim swapRB e.1 buf (by omega)
      rw [hall p hp] at hbgp
      exact Bool.noConfusion hbgp
    simp [decodePixels, hm]
  · intro swapRB validIndex alive buf k hsel
    simp only [decodePixels] at hsel
    by_cases hm : (scanBuffer swapRB buf).maxAmount ≠ 0
    · rw [if_pos hm] at hsel
      cases hf : (scanBuffer swapRB buf).ids.find?
          (fun e => e.2 == (scanBuffer swapRB buf).maxAmount) with
      | none =>
        rw [hf] at hsel
        exact SelectionOutcome.noConfusion hsel
      | some e =>
        rw [hf] at hsel
        have hmem := List.mem_of_find?_eq_some hf
        obtain ⟨heC, hepos⟩ := ids_entry_charact swapRB buf e hmem
        obtain ⟨p, hp, hbgp, hkey⟩ := keyCount_pos_elim swapRB e.1 buf (by omega)
        have hk : e.1 = k := by
          by_cases hv : validIndex e.1 = true
          · by_cases ha : alive e.1 = true
            · simpa [hv, ha] using hsel
            · simp only [Bool.not_eq_true] at ha
              simp [hv, ha] at hsel
          · simp only [Bool.not_eq_true] at hv
            simp [hv] at hsel
        intro hk0
        have he0 : e.1 = 0 := hk.trans hk0
        rw [he0] at hkey
        rw [isBackground_of_key_zero swapRB p hkey] at hbgp
        exact Bool.noConfusion hbgp
    · rw [if_neg hm] at hsel
      exact SelectionOutcome.noConfusion hsel

/-- C5 witness: the theorem's parts at concrete inputs. -/
theorem c5_background_sentinel_witness :
    mapFind 0 (scanBuffer false [⟨0, 0, 0, 255⟩, ⟨5, 0, 0, 255⟩]).ids = none ∧
    decodePixels false (fun _ => true) (fun _ => true) [⟨0, 0, 0, 255⟩, ⟨0, 0, 0, 0⟩] =
      SelectionOutcome.deselect := by
  exact ⟨c5_background_sentinel.1 false _,
         c5_background_sentinel.2.1 false _ _ _ (by decide)⟩

/-! ## C9: tie-break determinism -/

/-- C9: the decode is a deterministic function of the buffer contents — two
runs over equal buffers give equal outcomes — and on a buffer with two or
more distinct non-background colors tied at the maximum count the winner is
fixed by the histogram's iteration order: the `std::map` iterates keys in
ascending order, so the winner is the LEAST key attaining the maximum
count. -/
theorem c9_tie_break_deterministic (swapRB : Bool) (validIndex alive : Nat → Bool)
    (buf1 buf2 : List Pixel) (k1 k2 : Nat)
    (heq : buf1 = buf2) (hne : k1 ≠ k2)
    (h1pos : 0 < keyCount swapRB k1 buf1)
    (h2pos : 0 < keyCount swapRB k2 buf1)
    (htie : keyCount swapRB k1 buf1 = keyCount swapRB k2 buf1)
    (hmax : ∀ k, keyCount swapRB k buf1 ≤ keyCount swapRB k1 buf1) :
    decodePixels swapRB validIndex alive buf1 = decodePixels swapRB validIndex alive buf2 ∧
    ∃ w : Nat × Nat,
      (scanBuffer swapRB buf1).ids.find?
        (fun e => e.2 == (scanBuffer swapRB buf1).maxAmount) = some w ∧
      w.2 = keyCount swapRB w.1 buf1 ∧
      w.2 = (scanBuffer swapRB buf1).maxAmount ∧
      ∀ k, 0 < keyCount swapRB k buf1 →
        keyCount swapRB k buf1 = (scanBuffer swapRB buf1).maxAmount → w.1 ≤ k := by
  subst heq
  refine ⟨rfl, ?_⟩
  obtain ⟨h1, h3, h4, h5⟩ := scanBuffer_inv swapRB buf1
  have hmem1 := mem_ids_of_keyCount_pos swapRB buf1 k1 h1pos
  have hm_ge : keyCount swapRB k1 buf1 ≤ (scanBuffer swapRB buf1).maxAmount := h3 _ hmem1
  have hmpos : 0 < (scanBuffer swapRB buf1).maxAmount := lt_of_lt_of_le h1pos hm_ge
  obtain ⟨e, he, hev⟩ := h4 hmpos
  cases hf : (scanBuffer swapRB buf1).ids.find?
      (fun e => e.2 == (scanBuffer swapRB buf1).maxAmount) with
  | none =>
    rw [List.find?_eq_none] at hf
    exact absurd (by simpa using hev) (by simpa using hf e he)
  | some w =>
    have hpw := List.find?_some hf
    have hmemw := List.mem_of_find?_eq_some hf
    obtain ⟨hwC, hwpos⟩ := ids_entry_charact swapRB buf1 w hmemw
    refine ⟨w, rfl, hwC, by simpa using hpw, ?_⟩
    intro k hkpos hkeq
    have hmemk := mem_ids_of_keyCount_pos swapRB buf1 k hkpos
    exact find_sorted_min _ _ w (k, keyCount swapRB k buf1) h5 hf hmemk (by simpa using hkeq)

/-- C9 witness: a two-texel buffer with keys 2 and 1 tied at count one; the
winner is key 1, the least of the tied keys. -/
theorem c9_tie_break_deterministic_witness :
    decodePixels false (fun _ => true) (fun _ => true) [⟨2, 0, 0, 255⟩, ⟨1, 0, 0, 255⟩] =
      decodePixels false (fun _ => true) (fun _ => true) [⟨2, 0, 0, 255⟩, ⟨1, 0, 0, 255⟩] ∧
    ∃ w : Nat × Nat,
      (scanBuffer false [⟨2, 0, 0, 255⟩, ⟨1, 0, 0, 255⟩]).ids.find?
        (fun e => e.2 == (scanBuffer false [⟨2, 0, 0, 255⟩, ⟨1, 0, 0, 255⟩]).maxAmount) =
          some w ∧
      w.2 = keyCount false w.1 [⟨2, 0, 0, 255⟩, ⟨1, 0, 0, 255⟩] ∧
      w.2 = (scanBuffer false [⟨2, 0, 0, 255⟩, ⟨1, 0, 0, 255⟩]).maxAmount ∧
      ∀ k, 0 < keyCount false k [⟨2, 0, 0, 255⟩, ⟨1, 0, 0, 255⟩] →
        keyCount false k [⟨2, 0, 0, 255⟩, ⟨1, 0, 0, 255⟩] =
          (scanBuffer false [⟨2, 0, 0, 255⟩, ⟨1, 0, 0, 255⟩]).maxAmount → w.1 ≤ k := by
  apply c9_tie_break_deterministic false (fun _ => true) (fun _ => true) _ _ 1 2 rfl
    (by decide) (by decide) (by decide) (by decide)
  intro k
  rcases Nat.eq_zero_or_pos (keyCount false k [⟨2, 0, 0, 255⟩, ⟨1, 0, 0, 255⟩]) with h | h
  · rw [h]
    exact Nat.zero_le _
  · obtain ⟨p, hp, hbgp, hkey⟩ := keyCount_pos_elim false k _ h
    have hp2 : p = ⟨2, 0, 0, 255⟩ ∨ p = ⟨1, 0, 0, 255⟩ := by simpa using hp
    rcases hp2 with h2 | h2
    · subst h2
      have ht : texelKey false ⟨2, 0, 0, 255⟩ = 2 := by decide
      rw [ht] at hkey
      subst hkey
      decide
    · subst h2
      have ht : texelKey false ⟨1, 0, 0, 255⟩ = 1 := by decide
      rw [ht] at hkey
      subst hkey
      decide

/-! ## Tick-level claims -/

/-- A tick input whose click passes every guard of the click branch, with no
gizmo interaction, an empty staging buffer and a dead ECS (the decode is not
reached in the scenarios this input is used for). -/
def okClickInput (blit : Bool) (fence frame : Nat) : TickInput :=
  { clicked := true, gizmoOver := false, cameraOk := true, unprojectNearOk := true,
    unprojectFarOk := true, blitSupport := blit, readFence := fence, renderFrame := frame,
    swapRB := false, buffer := [], validIndex := fun _ => false, alive := fun _ => false }

/-- C1 counterexample: with a readback outstanding (`_reading = 5`, fence
not reached since the render frame is 3 < 5), a click edge is NOT dropped:
the tick starts a new `picking_buffer_fill` render pass and overwrites the
readback state (`_reading` becomes the new fence 9), so the first cycle does
not complete unchanged. -/
theorem c1_click_during_fence_cex :
    (frame_render_tick ⟨5, false, none⟩ (okClickInput true 9 3)).2.renderedPass = true ∧
    (frame_render_tick ⟨5, false, none⟩ (okClickInput true 9 3)).1.reading = 9 ∧
    (okClickInput true 9 3).renderFrame < 5 := by
  decide

/-- C1 (amended): a click edge that passes the guard chain while a previous
pick's readback cycle is outstanding (`AwaitingFence`, fence not reached) is
NOT dropped: the tick starts a new identity-buffer render pass, resets
`_reading`, re-issues the blit into the staging target owned by the first
request, and re-arms the state with the new fence — the first cycle's decode
never runs (here stated for a new fence still in the future). -/
theorem c1_click_during_fence_amended (st : PickState) (inp : TickInput)
    (hread : 0 < st.reading) (hframe : inp.renderFrame < st.reading)
    (hc : inp.clicked = true) (hg : inp.gizmoOver = false) (hcam : inp.cameraOk = true)
    (hn : inp.unprojectNearOk = true) (hf : inp.unprojectFarOk = true)
    (hblit : inp.blitSupport = true) (hnf : inp.renderFrame < inp.readFence) :
    (frame_render_tick st inp).2.renderedPass = true ∧
    (frame_render_tick st inp).2.blitIssued = true ∧
    (frame_render_tick st inp).1.reading = inp.readFence ∧
    (frame_render_tick st inp).1.start_readback = false ∧
    (frame_render_tick st inp).2.decoded = false ∧
    (frame_render_tick st inp).2.outcome = SelectionOutcome.noChange := by
  have hle : ¬ inp.readFence ≤ inp.renderFrame := by omega
  simp [frame_render_tick, readbackPhase, decodePhase, hc, hg, hcam, hn, hf, hblit, hle]

/-- C1 amended witness: fence 7 outstanding, render frame 4, new fence 12. -/
theorem c1_click_during_fence_amended_witness :
    (frame_render_tick ⟨7, false, some 4⟩ (okClickInput true 12 4)).2.renderedPass = true ∧
    (frame_render_tick ⟨7, false, some 4⟩ (okClickInput true 12 4)).2.blitIssued = true ∧
    (frame_render_tick ⟨7, false, some 4⟩ (okClickInput true 12 4)).1.reading =
      (okClickInput true 12 4).readFence ∧
    (frame_render_tick ⟨7, false, some 4⟩ (okClickInput true 12 4)).1.start_readback = false ∧
    (frame_render_tick ⟨7, false, some 4⟩ (okClickInput true 12 4)).2.decoded = false ∧
    (frame_render_tick ⟨7, false, some 4⟩ (okClickInput true 12 4)).2.outcome =
      SelectionOutcome.noChange := by
  exact c1_click_during_fence_amended ⟨7, false, some 4⟩ (okClickInput true 12 4)
    (by decide) (by decide) rfl rfl rfl rfl rfl rfl (by decide)

/-- C7 counterexample: with blit unsupported, the capability warning is NOT
logged exactly once per session and later picks are NOT silent no-ops: the
first click warns, and a second click on the next tick warns AGAIN and still
starts a new identity render pass. -/
theorem c7_noblit_every_pick_cex :
    (frame_render_tick ⟨0, false, none⟩ (okClickInput false 0 0)).2.warnedNoBlit = true ∧
    (frame_render_tick
        (frame_render_tick ⟨0, false, none⟩ (okClickInput false 0 0)).1
        (okClickInput false 0 0)).2.warnedNoBlit = true ∧
    (frame_render_tick
        (frame_render_tick ⟨0, false, none⟩ (okClickInput false 0 0)).1
        (okClickInput false 0 0)).2.renderedPass = true := by
  decide

/-- C7 (amended): every pick attempted while the platform lacks texture-blit
support logs the capability warning (once per pick, not once per session),
abandons that cycle and returns the state machine to Idle (`_reading = 0`,
`_start_readback = false`) with no outcome and the selection untouched; the
identity render pass still runs on each such click; the tick is a total
function, so no crash or propagated failure occurs. -/
theorem c7_noblit_amended (st : PickState) (inp : TickInput)
    (hc : inp.clicked = true) (hg : inp.gizmoOver = false) (hcam : inp.cameraOk = true)
    (hn : inp.unprojectNearOk = true) (hf : inp.unprojectFarOk = true)
    (hblit : inp.blitSupport = false) :
    (frame_render_tick st inp).1.reading = 0 ∧
    (frame_render_tick st inp).1.start_readback = false ∧
    (frame_render_tick st inp).1.selection = st.selection ∧
    (frame_render_tick st inp).2.warnedNoBlit = true ∧
    (frame_render_tick st inp).2.renderedPass = true ∧
    (frame_render_tick st inp).2.blitIssued = false ∧
    (frame_render_tick st inp).2.decoded = false ∧
    (frame_render_tick st inp).2.outcome = SelectionOutcome.noChange := by
  simp [frame_render_tick, readbackPhase, decodePhase, hc, hg, hcam, hn, hf, hblit]

/-- C7 amended witness. -/
theorem c7_noblit_amended_witness :
    (frame_render_tick ⟨0, false, some 9⟩ (okClickInput false 0 5)).1.reading = 0 ∧
    (frame_render_tick ⟨0, false, some 9⟩ (okClickInput false 0 5)).1.start_readback = false ∧
    (frame_render_tick ⟨0, false, some 9⟩ (okClickInput false 0 5)).1.selection =
      (⟨0, false, some 9⟩ : PickState).selection ∧
    (frame_render_tick ⟨0, false, some 9⟩ (okClickInput false 0 5)).2.warnedNoBlit = true ∧
    (frame_render_tick ⟨0, false, some 9⟩ (okClickInput false 0 5)).2.renderedPass = true ∧
    (frame_render_tick ⟨0, false, some 9⟩ (okClickInput false 0 5)).2.blitIssued = false ∧
    (frame_render_tick ⟨0, false, some 9⟩ (okClickInput false 0 5)).2.decoded = false ∧
    (frame_render_tick ⟨0, false, some 9⟩ (okClickInput false 0 5)).2.outcome =
      SelectionOutcome.noChange := by
  exact c7_noblit_amended ⟨0, false, some 9⟩ (okClickInput false 0 5) rfl rfl rfl rfl rfl rfl

/-- C8 counterexample: while `AwaitingFence(6)` with render frame 2 < 6, a
frame tick does NOT necessarily leave the state unchanged: a click edge on
that tick rewrites the readback state. -/
theorem c8_fence_wait_cex :
    (frame_render_tick ⟨6, false, some 3⟩ (okClickInput true 11 2)).1 ≠
      (⟨6, false, some 3⟩ : PickState) ∧
    (okClickInput true 11 2).renderFrame < 6 := by
  decide

/-- C8 (amended): while the state is `AwaitingFence(f)` (that is,
`_reading = f > 0`) and the completed-frame counter is strictly below `f`,
every tick ON WHICH NO CLICK EDGE FIRES leaves the state completely
unchanged with no observable event; and on any no-click tick in
`AwaitingFence(f)` the decode runs only if the completed-frame counter has
reached `f` — the decode never runs before the recorded fence frame. -/
theorem c8_fence_wait_amended (st : PickState) (inp : TickInput) (f : Nat)
    (hst : st.reading = f) (hpos : 0 < f) (hnc : inp.clicked = false) :
    (inp.renderFrame < f → frame_render_tick st inp = (st, noEvents)) ∧
    ((frame_render_tick st inp).2.decoded = true → f ≤ inp.renderFrame) := by
  have h0 : ¬ (st.reading = 0 ∧ st.start_readback = true) := by
    intro hcontra
    omega
  constructor
  · intro hlt
    have hnd : ¬ (0 < st.reading ∧ st.reading ≤ inp.renderFrame) := by
      intro hcontra
      omega
    simp [frame_render_tick, readbackPhase, decodePhase, hnc, h0, hnd, noEvents]
  · intro hdec
    by_cases hcond : 0 < st.reading ∧ st.reading ≤ inp.renderFrame
    · omega
    · exfalso
      simp [frame_render_tick, readbackPhase, decodePhase, hnc, h0, hcond] at hdec

/-- C8 amended witness: fence 6 outstanding, render frame 2, no click. -/
theorem c8_fence_wait_amended_witness :
    ((okClickInput true 0 2).renderFrame < 6 →
      frame_render_tick ⟨6, false, none⟩
        { okClickInput true 0 2 with clicked := false } =
        (⟨6, false, none⟩, noEvents)) ∧
    ((frame_render_tick ⟨6, false, none⟩
        { okClickInput true 0 2 with clicked := false }).2.decoded = true →
      (6 : Nat) ≤ (okClickInput true 0 2).renderFrame) := by
  have h := c8_fence_wait_amended ⟨6, false, none⟩
    { okClickInput true 0 2 with clicked := false } 6 rfl (by decide) rfl
  exact ⟨fun _ => h.1 (by decide), h.2⟩

/-- C10: when `gfx::read_texture` cannot schedule the read and returns fence
frame 0 at the blit step, the tick ends back in Idle (`_reading = 0`,
`_start_readback = false`): the decode block does not run for that click, no
selection outcome is emitted, the previous selection is unchanged, and — the
state being Idle — the next click proceeds through the same un-gated click
branch as any first click. -/
theorem c10_failed_read_returns_idle (st : PickState) (inp : TickInput)
    (hc : inp.clicked = true) (hg : inp.gizmoOver = false) (hcam : inp.cameraOk = true)
    (hn : inp.unprojectNearOk = true) (hf : inp.unprojectFarOk = true)
    (hblit : inp.blitSupport = true) (hfence : inp.readFence = 0) :
    (frame_render_tick st inp).1.reading = 0 ∧
    (frame_render_tick st inp).1.start_readback = false ∧
    (frame_render_tick st inp).1.selection = st.selection ∧
    (frame_render_tick st inp).2.blitIssued = true ∧
    (frame_render_tick st inp).2.decoded = false ∧
    (frame_render_tick st inp).2.outcome = SelectionOutcome.noChange := by
  simp [frame_render_tick, readbackPhase, decodePhase, hc, hg, hcam, hn, hf, hblit, hfence]

/-- C10 witness: a click with a failed read scheduling (fence 0), taken even
from a state that had a selection. -/
theorem c10_failed_read_returns_idle_witness :
    (frame_render_tick ⟨0, false, some 8⟩ (okClickInput true 0 10)).1.reading = 0 ∧
    (frame_render_tick ⟨0, false, some 8⟩ (okClickInput true 0 10)).1.start_readback = false ∧
    (frame_render_tick ⟨0, false, some 8⟩ (okClickInput true 0 10)).1.selection =
      (⟨0, false, some 8⟩ : PickState).selection ∧
    (frame_render_tick ⟨0, false, some 8⟩ (okClickInput true 0 10)).2.blitIssued = true ∧
    (frame_render_tick ⟨0, false, some 8⟩ (okClickInput true 0 10)).2.decoded = false ∧
    (frame_render_tick ⟨0, false, some 8⟩ (okClickInput true 0 10)).2.outcome =
      SelectionOutcome.noChange := by
  exact c10_failed_read_returns_idle ⟨0, false, some 8⟩ (okClickInput true 0 10)
    rfl rfl rfl rfl rfl rfl rfl

end Ethereal
